import Mathlib

/-!
Shallow embedding of the axuy simulation core (src/axuy/misc.py,
src/axuy/pico.py, src/axuy/peer.py).

Real-valued (Python float / numpy float32) quantities are modelled as
rationals.  The module-level constants `RPICO = norm(TETRAVERTICES[0])`,
`RSHARD = norm(OCTOVERTICES[0])`, `RCOLL = RPICO * 2/3`,
`PICO_SPEED = 1 + sqrt 5`, `SHARD_SPEED = PICO_SPEED * 2` and `RPS = pi`
are irrational reals rounded to float32 by the source; they are modelled
as the fields of a `Consts` parameter, and every theorem below holds for
every rational value of those fields, which subsumes the rounded values.
Calls to `random()` are modelled as explicit input streams; the rotation
matrix produced by `rot33` (built from `cos`/`sin`) is likewise taken as
an input.
-/

namespace Axuy

/-- Python `x % m` on floats for a positive modulus `m`:
`x - m * floor (x / m)`, always in `[0, m)`. -/
def pymod (x m : ℚ) : ℚ := x - m * ⌊x / m⌋

/-- `twelve` from misc.py: `int(x % 12)`.  Since `x % 12 ∈ [0, 12)`,
Python's truncation toward zero agrees with the floor. -/
def twelve (x : ℚ) : ℤ := ⌊pymod x 12⌋

/-- `nine` from misc.py: `int(x % 9)`. -/
def nine (x : ℚ) : ℤ := ⌊pymod x 9⌋

/-- The occupancy space: `numpy` array of shape (12, 12, 9) of bools,
modelled as a total function (all indices produced by `twelve`/`nine`
lie in range). -/
def Space : Type := ℤ → ℤ → ℤ → Bool

/-- `placeable` from misc.py: whether a sphere of radius `r` can be
placed at `(x, y, z)`, testing the cells indexed by
`{twelve(x-r), twelve(x), twelve(x+r)} × {...y...} × {nine(z-r), nine(z), nine(z+r)}`.
The source iterates over Python sets; duplicate samples do not change
the result of `any`, so lists are used. -/
def placeable (space : Space) (x y z r : ℚ) : Bool :=
  !(([twelve (x - r), twelve x, twelve (x + r)].any fun i =>
     ([twelve (y - r), twelve y, twelve (y + r)].any fun j =>
      ([nine (z - r), nine z, nine (z + r)].any fun k => space i j k))))

/-- Modelled from the spec: `placeable` as the spec words it — true iff
none of the (at most 27) cells indexed by the per-axis sample sets is
occupied. -/
def placeableSpec (space : Space) (x y z r : ℚ) : Prop :=
  ∀ i ∈ [twelve (x - r), twelve x, twelve (x + r)],
    ∀ j ∈ [twelve (y - r), twelve y, twelve (y + r)],
      ∀ k ∈ [nine (z - r), nine z, nine (z + r)],
        space i j k = false

/-- A 3-vector of rationals (a numpy float32 array of length 3). -/
structure Vec3 where
  x : ℚ
  y : ℚ
  z : ℚ
deriving DecidableEq

instance : Add Vec3 := ⟨fun a b => ⟨a.x + b.x, a.y + b.y, a.z + b.z⟩⟩

instance : Neg Vec3 := ⟨fun a => ⟨-a.x, -a.y, -a.z⟩⟩

instance : Sub Vec3 := ⟨fun a b => ⟨a.x - b.x, a.y - b.y, a.z - b.z⟩⟩

instance : SMul ℚ Vec3 := ⟨fun q a => ⟨q * a.x, q * a.y, q * a.z⟩⟩

@[simp] theorem Vec3.add_def (u v : Vec3) :
    u + v = ⟨u.x + v.x, u.y + v.y, u.z + v.z⟩ := rfl

@[simp] theorem Vec3.sub_def (u v : Vec3) :
    u - v = ⟨u.x - v.x, u.y - v.y, u.z - v.z⟩ := rfl

@[simp] theorem Vec3.neg_def (u : Vec3) : -u = ⟨-u.x, -u.y, -u.z⟩ := rfl

@[simp] theorem Vec3.smul_def (q : ℚ) (u : Vec3) :
    q • u = ⟨q * u.x, q * u.y, q * u.z⟩ := rfl

/-- Squared Euclidean norm; the source compares `norm v < RCOLL`,
modelled as `sqnorm v < RCOLL ^ 2`. -/
def sqnorm (v : Vec3) : ℚ := v.x * v.x + v.y * v.y + v.z * v.z

/-- A 3×3 matrix of rationals, stored as rows, mirroring the numpy
rotational matrices.  `r2` is the last row (`rot[-1]`, the forward
direction). -/
structure Mat3 where
  r0 : Vec3
  r1 : Vec3
  r2 : Vec3
deriving DecidableEq

/-- Row vector times matrix: `v @ m` in numpy. -/
def vecMulMat (v : Vec3) (m : Mat3) : Vec3 :=
  ⟨v.x * m.r0.x + v.y * m.r1.x + v.z * m.r2.x,
   v.x * m.r0.y + v.y * m.r1.y + v.z * m.r2.y,
   v.x * m.r0.z + v.y * m.r1.z + v.z * m.r2.z⟩

/-- Matrix product `a @ b`. -/
def matMul (a b : Mat3) : Mat3 :=
  ⟨vecMulMat a.r0 b, vecMulMat a.r1 b, vecMulMat a.r2 b⟩

/-- Elementwise negation `-m` of a matrix. -/
def negMat (m : Mat3) : Mat3 := ⟨-m.r0, -m.r1, -m.r2⟩

/-- `INVX` from pico.py. -/
def INVX : Mat3 := ⟨⟨-1, 0, 0⟩, ⟨0, 1, 0⟩, ⟨0, 0, 1⟩⟩

/-- `INVY` from pico.py. -/
def INVY : Mat3 := ⟨⟨1, 0, 0⟩, ⟨0, -1, 0⟩, ⟨0, 0, 1⟩⟩

/-- `INVZ` from pico.py. -/
def INVZ : Mat3 := ⟨⟨1, 0, 0⟩, ⟨0, 1, 0⟩, ⟨0, 0, -1⟩⟩

/-- `normalized` from misc.py: returns the zero vector unchanged
(`if not any(v): return v`), otherwise `v / sum(v**2)`. -/
def normalized (x y z : ℚ) : Vec3 :=
  if (⟨x, y, z⟩ : Vec3) = ⟨0, 0, 0⟩ then ⟨x, y, z⟩
  else (1 / (x * x + y * y + z * z)) • (⟨x, y, z⟩ : Vec3)

/-- The irrational module-level constants of pico.py, as rational
parameters (see the module docstring).  Source values:
`RPICO = 1/6` (exactly, up to float32 rounding), `RCOLL = RPICO*2/3`,
`RSHARD = sqrt 3 / 18`, `PICO_SPEED = 1 + sqrt 5`,
`SHARD_SPEED = 2 * PICO_SPEED`, `RPS = pi`. -/
structure Consts where
  RPICO : ℚ
  RCOLL : ℚ
  RSHARD : ℚ
  PICO_SPEED : ℚ
  SHARD_SPEED : ℚ
  RPS : ℚ
deriving DecidableEq

/-- `SHARD_LIFE` from pico.py: the (exact) integer bounce budget. -/
def SHARD_LIFE : ℤ := 3

/-- A `Shard` (pico.py).  The `space` attribute (shared, immutable) is
passed to the functions below instead of being stored, so that state
equality stays decidable; `addr` is modelled as an opaque `ℕ` id. -/
structure Shard where
  addr : ℕ
  power : ℤ
  x : ℚ
  y : ℚ
  z : ℚ
  rot : Mat3
deriving DecidableEq

/-- `Shard.__init__`: the `pos` setter wraps each coordinate
(`x % 12`, `y % 12`, `z % 9`). -/
def mkShard (addr : ℕ) (pos : Vec3) (rot : Mat3) (power : ℤ) : Shard :=
  ⟨addr, power, pymod pos.x 12, pymod pos.y 12, pymod pos.z 9, rot⟩

/-- `Shard.pos` getter. -/
def shardPos (s : Shard) : Vec3 := ⟨s.x, s.y, s.z⟩

/-- `Shard.forward`: the last row of the rotational matrix. -/
def shardForward (s : Shard) : Vec3 := s.rot.r2

/-- `Shard.sync`: unconditional overwrite of position (wrapped by the
`pos` setter), rotation and power. -/
def shardSync (s : Shard) (pos : Vec3) (rot : Mat3) (power : ℤ) : Shard :=
  { s with x := pymod pos.x 12, y := pymod pos.y 12, z := pymod pos.z 9,
           rot := rot, power := power }

/-- A `Pico` (pico.py).  As for `Shard`, `space` is a function argument
and `addr` an opaque id; the shard map (a Python dict with integer keys)
is an association list in insertion order. -/
structure Pico where
  addr : ℕ
  health : ℚ
  x : ℚ
  y : ℚ
  z : ℚ
  rot : Mat3
  shards : List (ℕ × Shard)
  recoil_u : Vec3
  recoil_t : ℚ
  fps : ℚ
deriving DecidableEq

/-- `Pico.pos` getter (the `Pico` position setter does not wrap). -/
def picoPos (p : Pico) : Vec3 := ⟨p.x, p.y, p.z⟩

/-- `Pico.forward`. -/
def picoForward (p : Pico) : Vec3 := p.rot.r2

/-- `Pico.dead`: health is negative. -/
def picoDead (p : Pico) : Prop := p.health < 0

/-- `Pico.__init__` with `position=None` and `rotation=None` (the path
taken at spawn and respawn): position is rejection-sampled until
`placeable` at radius `RPICO`; modelled by the first acceptable entry
of the candidate stream `cands` (`none` models the source looping
beyond the given prefix of the random stream).  The random initial
rotation (`INVZ` followed by `rotate` of two random angles, which uses
`cos`/`sin`) is taken as the input `rot`. -/
def picoInit (c : Consts) (addr : ℕ) (space : Space) (cands : List Vec3)
    (rot : Mat3) : Option Pico :=
  (cands.find? fun t => placeable space t.x t.y t.z c.RPICO).map fun t =>
    { addr := addr, health := 1, x := t.x, y := t.y, z := t.z, rot := rot,
      shards := [], recoil_u := ⟨0, 0, 0⟩, recoil_t := 0, fps := 60 }

/-- The desired direction computed by `Pico.update`:
`normalized(right, upward, forward) @ rot`, plus
`recoil_u * recoil_t * RPS` while the recoil timer is nonzero. -/
def picoDirection (c : Consts) (p : Pico) (right upward forward : ℚ) : Vec3 :=
  if p.recoil_t ≠ 0 then
    vecMulMat (normalized right upward forward) p.rot
      + (p.recoil_t * c.RPS) • p.recoil_u
  else vecMulMat (normalized right upward forward) p.rot

/-- The candidate position of `Pico.update`:
`pos + direction * dt * PICO_SPEED` with `dt = 1 / fps`. -/
def picoCand (c : Consts) (p : Pico) (right upward forward : ℚ) : Vec3 :=
  picoPos p + (1 / p.fps * c.PICO_SPEED) • picoDirection c p right upward forward

/-- `if self.placeable(x=x): self.x = x % 12` — commit the x move only
if placeable there, holding the other two coordinates fixed. -/
def commitX (c : Consts) (space : Space) (p : Pico) (nx : ℚ) : Pico :=
  if placeable space nx p.y p.z c.RPICO then { p with x := pymod nx 12 } else p

/-- `if self.placeable(y=y): self.y = y % 12` (the test reads the
possibly already-updated x). -/
def commitY (c : Consts) (space : Space) (p : Pico) (ny : ℚ) : Pico :=
  if placeable space p.x ny p.z c.RPICO then { p with y := pymod ny 12 } else p

/-- `if self.placeable(z=z): self.z = z % 9`. -/
def commitZ (c : Consts) (space : Space) (p : Pico) (nz : ℚ) : Pico :=
  if placeable space p.x p.y nz c.RPICO then { p with z := pymod nz 9 } else p

/-- The three sequential axis commits of `Pico.update`. -/
def picoMove (c : Consts) (space : Space) (p : Pico) (n : Vec3) : Pico :=
  commitZ c space (commitY c space (commitX c space p n.x) n.y) n.z

/-- The not-dead branch of `Pico.update`.  `lg` stands for the
transcendental `log10`, uninterpreted (it only feeds the health
regeneration). -/
def picoUpdateAlive (c : Consts) (lg : ℚ → ℚ) (space : Space) (p : Pico)
    (right upward forward : ℚ) : Pico :=
  let dt := 1 / p.fps
  let n := picoCand c p right upward forward
  let p1 := { p with health := min 1 (p.health + lg (p.health + 1) * dt),
                     recoil_t := if p.recoil_t ≠ 0 then max (p.recoil_t - dt) 0
                                 else p.recoil_t }
  picoMove c space p1 n

/-- `Pico.update`: respawn via `__init__` when dead, else regenerate
health and perform the axis-separable move. -/
def picoUpdate (c : Consts) (lg : ℚ → ℚ) (space : Space) (cands : List Vec3)
    (newrot : Mat3) (p : Pico) (right upward forward : ℚ) : Option Pico :=
  if p.health < 0 then picoInit c p.addr space cands newrot
  else some (picoUpdateAlive c lg space p right upward forward)

/-- `max(self.shards, default=0)`: the maximum key of the shard map,
`0` when empty. -/
def maxKey (sh : List (ℕ × Shard)) : ℕ := sh.foldr (fun e m => max e.1 m) 0

/-- `Pico.add_shard`: insert a fresh `Shard` under key
`max(self.shards, default=0) + 1` at `pos - recoil_u * RPICO`. -/
def addShard (c : Consts) (p : Pico) (pos : Vec3) (rot : Mat3) : Pico :=
  { p with shards := p.shards ++
      [(maxKey p.shards + 1,
        mkShard p.addr (pos - c.RPICO • p.recoil_u) rot SHARD_LIFE)] }

/-- `Pico.shoot`: no-op while the recoil timer is nonzero or when dead;
otherwise set the recoil timer and direction and add a shard
(at `-pos` with rotation `-rot` for backward fire). -/
def shoot (c : Consts) (p : Pico) (backward : Bool) : Pico :=
  if p.recoil_t ≠ 0 ∨ p.health < 0 then p
  else if backward then
    addShard c { p with recoil_t := 1 / c.RPS, recoil_u := picoForward p }
      (-(picoPos p)) (negMat p.rot)
  else
    addShard c { p with recoil_t := 1 / c.RPS, recoil_u := -(picoForward p) }
      (picoPos p) p.rot

/-- Python dict lookup on an association list (first matching key). -/
def alookup {α : Type} : List (ℕ × α) → ℕ → Option α
  | [], _ => none
  | e :: rest, i => if e.1 = i then some e.2 else alookup rest i

/-- One snapshot entry applied by `Pico.sync`:
`try: self.shards[i].sync(...)` — update the tracked shard in place —
`except KeyError: self.shards[i] = Shard(...)` — create it. -/
def syncOneShard (addr : ℕ) (sh : List (ℕ × Shard)) (i : ℕ)
    (t : Vec3 × Mat3 × ℤ) : List (ℕ × Shard) :=
  if (alookup sh i).isSome then
    sh.map fun e => if e.1 = i then (e.1, shardSync e.2 t.1 t.2.1 t.2.2) else e
  else sh ++ [(i, mkShard addr t.1 t.2.1 t.2.2)]

/-- `Pico.sync`: overwrite health, position (unwrapped — the `Pico`
position setter does not wrap) and rotation, then apply every snapshot
entry.  A snapshot is an association list of
`id ↦ (position, rotation, power)`. -/
def picoSync (p : Pico) (health : ℚ) (pos : Vec3) (rot : Mat3)
    (snap : List (ℕ × Vec3 × Mat3 × ℤ)) : Pico :=
  { p with health := health, x := pos.x, y := pos.y, z := pos.z, rot := rot,
           shards := snap.foldl (fun sh e => syncOneShard p.addr sh e.1 e.2)
                       p.shards }

/-- The predicted position of `Shard.update`:
`pos + forward / fps * SHARD_SPEED` (with the pre-bounce forward). -/
def shardCandP (c : Consts) (fps : ℚ) (s : Shard) : Vec3 :=
  shardPos s + (c.SHARD_SPEED / fps) • shardForward s

/-- `should_bounce(x=value)`: the x-axis predicted coordinate is not
placeable at radius `RSHARD`, the other two coordinates held fixed. -/
def bounceX (c : Consts) (space : Space) (fps : ℚ) (s : Shard) : Bool :=
  !placeable space (shardCandP c fps s).x s.y s.z c.RSHARD

/-- `should_bounce(y=value)`. -/
def bounceY (c : Consts) (space : Space) (fps : ℚ) (s : Shard) : Bool :=
  !placeable space s.x (shardCandP c fps s).y s.z c.RSHARD

/-- `should_bounce(z=value)`. -/
def bounceZ (c : Consts) (space : Space) (fps : ℚ) (s : Shard) : Bool :=
  !placeable space s.x s.y (shardCandP c fps s).z c.RSHARD

/-- Whether any axis bounced this tick. -/
def shardBounced (c : Consts) (space : Space) (fps : ℚ) (s : Shard) : Bool :=
  bounceX c space fps s || bounceY c space fps s || bounceZ c space fps s

/-- The rotation after the bounce loop: `rot @ INV[axis]` for each
bouncing axis, in the order x, y, z. -/
def shardRotAfter (c : Consts) (space : Space) (fps : ℚ) (s : Shard) : Mat3 :=
  let rot1 := if bounceX c space fps s then matMul s.rot INVX else s.rot
  let rot2 := if bounceY c space fps s then matMul rot1 INVY else rot1
  if bounceZ c space fps s then matMul rot2 INVZ else rot2

/-- The movement-and-bounce part of `Shard.update`: reflect the
rotation about every bouncing axis, then `self.pos += self.forward /
fps * SHARD_SPEED` — reading `forward` from the just-reflected rotation
— (wrapped by the `pos` setter), then `self.power -= bounced`. -/
def shardStep (c : Consts) (space : Space) (fps : ℚ) (s : Shard) : Shard :=
  let rot3 := shardRotAfter c space fps s
  let m := shardPos s + (c.SHARD_SPEED / fps) • rot3.r2
  { s with x := pymod m.x 12, y := pymod m.y 12, z := pymod m.z 9,
           rot := rot3,
           power := s.power - (if shardBounced c space fps s then 1 else 0) }

/-- The hit test of `Shard.update`: `norm(pico.pos - self.pos) < RCOLL`,
modelled on squared norms. -/
def hitTest (c : Consts) (spos : Vec3) (p : Pico) : Bool :=
  sqnorm (picoPos p - spos) < c.RCOLL ^ 2

/-- The hit loop of `Shard.update` over all picos: each pico within
`RCOLL` loses `power / SHARD_LIFE / RPS` health (with the shard's power
at that point of the loop) and the shard's power is zeroed. -/
def shardHits (c : Consts) : Shard → List Pico → Shard × List Pico
  | s, [] => (s, [])
  | s, p :: rest =>
    if hitTest c (shardPos s) p then
      let p2 := { p with health := p.health - (s.power : ℚ) / (SHARD_LIFE : ℚ) / c.RPS }
      let r := shardHits c { s with power := 0 } rest
      (r.1, p2 :: r.2)
    else
      let r := shardHits c s rest
      (r.1, p :: r.2)

/-- `Shard.update`: bounce and move, then resolve character hits. -/
def shardUpdate (c : Consts) (space : Space) (fps : ℚ) (picos : List Pico)
    (s : Shard) : Shard × List Pico :=
  shardHits c (shardStep c space fps s) picos

/-- Whether `Shard.update` hits any character this tick (i.e. some pico
lies within `RCOLL` of the moved shard). -/
def shardHitAny (c : Consts) (space : Space) (fps : ℚ) (picos : List Pico)
    (s : Shard) : Bool :=
  picos.any (hitTest c (shardPos (shardStep c space fps s)))

/-- The per-pico shard pass of `Peer.update`: update every shard in map
order, keep exactly those whose power is nonzero (`if shard.power:`),
threading the pico list (whose healths the updates may change). -/
def tickShards (c : Consts) (space : Space) (fps : ℚ) :
    List (ℕ × Shard) → List Pico → List (ℕ × Shard) × List Pico
  | [], picos => ([], picos)
  | e :: rest, picos =>
    let r1 := shardUpdate c space fps picos e.2
    let r2 := tickShards c space fps rest r1.2
    (if r1.1.power ≠ 0 then (e.1, r1.1) :: r2.1 else r2.1, r2.2)

/-- The networking state touched by `Peer.sync`: the append-only peer
list and the pico map keyed by address. -/
structure PeerState where
  peers : List ℕ
  picos : List (ℕ × Pico)

/-- A decoded inbound snapshot: the 4-tuple
`(health, position, rotation, shards)` produced by `loads`. -/
def Snapshot : Type := ℚ × Vec3 × Mat3 × List (ℕ × Vec3 × Mat3 × ℤ)

/-- One iteration of `Peer.sync` for the datagram `(data, addr)`.  An
undecodable payload is modelled as `none` (the `pickle.loads` call
raising); the `Except.error` carries the state at the moment the
uncaught exception propagates.  Note the source appends the unknown
address and creates its `Pico` (via `add_pico`, whose random placement
is the parameter `newPico`) before attempting to decode. -/
def peerSyncOne (newPico : ℕ → Pico) (st : PeerState) (d : ℕ × Option Snapshot) :
    Except PeerState PeerState :=
  let st1 := if (alookup st.picos d.1).isSome then st
             else { peers := st.peers ++ [d.1],
                    picos := st.picos ++ [(d.1, newPico d.1)] }
  match d.2 with
  | none => Except.error st1
  | some t =>
      Except.ok { st1 with picos := st1.picos.map fun e =>
        if e.1 = d.1 then (e.1, picoSync e.2 t.1 t.2.1 t.2.2.1 t.2.2.2) else e }

/-- `Peer.sync`: drain the queued datagrams in order; an uncaught decode
exception aborts the loop (and with it `Peer.update`), leaving the
mutations made so far. -/
def peerSync (newPico : ℕ → Pico) :
    PeerState → List (ℕ × Option Snapshot) → Except PeerState PeerState
  | st, [] => Except.ok st
  | st, d :: rest =>
    match peerSyncOne newPico st d with
    | Except.error st1 => Except.error st1
    | Except.ok st1 => peerSync newPico st1 rest

/-! Concrete fixtures used by counterexamples and witnesses. -/

/-- An occupancy space with no occupied cell. -/
def freeSpace : Space := fun _ _ _ => false

/-- A fully occupied occupancy space. -/
def fullSpace : Space := fun _ _ _ => true

/-- A space whose cells with z-index 8 are occupied (a wall at the top
z layer). -/
def wallZ8 : Space := fun _ _ k => k == 8

/-- The identity rotation. -/
def idMat : Mat3 := ⟨⟨1, 0, 0⟩, ⟨0, 1, 0⟩, ⟨0, 0, 1⟩⟩

/-- Sample rational values for the irrational source constants
(`RPICO = 1/6` is the exact mathematical value of
`norm(TETRAVERTICES[0])`). -/
def c0 : Consts :=
  { RPICO := 1/6, RCOLL := 1/9, RSHARD := 1/6, PICO_SPEED := 1,
    SHARD_SPEED := 1, RPS := 1 }

/-- A sample shard one tick below the `wallZ8` wall, flying straight up. -/
def s0 : Shard := ⟨0, 3, 1, 1, 7, idMat⟩

/-- A sample alive pico with no recoil and no shards. -/
def p0 : Pico :=
  { addr := 0, health := 1, x := 1, y := 2, z := 3, rot := idMat,
    shards := [], recoil_u := ⟨0, 0, 0⟩, recoil_t := 0, fps := 60 }

/-- One application of the `Peer.update` shard pass in `fullSpace`
(every axis bounces every tick) with no picos to hit. -/
def tick0 (sh : List (ℕ × Shard)) : List (ℕ × Shard) :=
  (tickShards c0 fullSpace 1 sh []).1

/-- `p0` after firing once and letting the projectile bounce itself to
exhaustion over three ticks of `tick0`. -/
def p0afterShards : List (ℕ × Shard) :=
  tick0 (tick0 (tick0 (addShard c0 p0 (picoPos p0) idMat).shards))

def p0after : Pico := { p0 with shards := p0afterShards }

/-!  Arithmetic lemmas about the wrapping helpers. -/

theorem pymod_add_int_mul (x m : ℚ) (k : ℤ) (hm : m ≠ 0) :
    pymod (x + m * k) m = pymod x m := by
  unfold pymod
  rw [add_div, mul_comm m (k : ℚ), mul_div_assoc, div_self hm, mul_one,
    Int.floor_add_int]
  push_cast
  ring

theorem twelve_add_int_mul (x : ℚ) (k : ℤ) :
    twelve (x + 12 * k) = twelve x := by
  unfold twelve
  rw [pymod_add_int_mul x 12 k (by norm_num)]

theorem nine_add_int_mul (x : ℚ) (k : ℤ) :
    nine (x + 9 * k) = nine x := by
  unfold nine
  rw [pymod_add_int_mul x 9 k (by norm_num)]

theorem pymod_shift (x d : ℚ) : pymod x 12 + d = (x + d) + 12 * (-⌊x / 12⌋ : ℤ) := by
  unfold pymod
  push_cast
  ring

theorem pymod_shift9 (x d : ℚ) : pymod x 9 + d = (x + d) + 9 * (-⌊x / 9⌋ : ℤ) := by
  unfold pymod
  push_cast
  ring

theorem twelve_pymod_add (x d : ℚ) : twelve (pymod x 12 + d) = twelve (x + d) := by
  rw [pymod_shift, twelve_add_int_mul]

theorem nine_pymod_add (x d : ℚ) : nine (pymod x 9 + d) = nine (x + d) := by
  rw [pymod_shift9, nine_add_int_mul]

theorem twelve_pymod (x : ℚ) : twelve (pymod x 12) = twelve x := by
  have h := twelve_pymod_add x 0
  simpa using h

theorem nine_pymod (x : ℚ) : nine (pymod x 9) = nine x := by
  have h := nine_pymod_add x 0
  simpa using h

theorem twelve_pymod_sub (x d : ℚ) : twelve (pymod x 12 - d) = twelve (x - d) := by
  have h := twelve_pymod_add x (-d)
  simpa [sub_eq_add_neg] using h

theorem nine_pymod_sub (x d : ℚ) : nine (pymod x 9 - d) = nine (x - d) := by
  have h := nine_pymod_add x (-d)
  simpa [sub_eq_add_neg] using h

theorem pymod_eq_self {x m : ℚ} (hm : 0 < m) (h0 : 0 ≤ x) (h1 : x < m) :
    pymod x m = x := by
  unfold pymod
  have hz : ⌊x / m⌋ = 0 := by
    rw [Int.floor_eq_zero_iff]
    constructor
    · exact div_nonneg h0 hm.le
    · rw [div_lt_one hm]
      exact h1
  rw [hz]
  push_cast
  ring

/-- `placeable` is invariant under wrapping the x coordinate: the wrap
subtracts an integer multiple of the x period. -/
theorem placeable_pymod_x (space : Space) (x y z r : ℚ) :
    placeable space (pymod x 12) y z r = placeable space x y z r := by
  unfold placeable
  rw [twelve_pymod_sub, twelve_pymod, twelve_pymod_add]

/-- `placeable` is invariant under wrapping the y coordinate. -/
theorem placeable_pymod_y (space : Space) (x y z r : ℚ) :
    placeable space x (pymod y 12) z r = placeable space x y z r := by
  unfold placeable
  rw [twelve_pymod_sub, twelve_pymod, twelve_pymod_add]

/-- `placeable` is invariant under wrapping the z coordinate. -/
theorem placeable_pymod_z (space : Space) (x y z r : ℚ) :
    placeable space x y (pymod z 9) r = placeable space x y z r := by
  unfold placeable
  rw [nine_pymod_sub, nine_pymod, nine_pymod_add]

/-! Characterization of the axis commits. -/

theorem commitX_x (c : Consts) (space : Space) (p : Pico) (nx : ℚ) :
    (commitX c space p nx).x =
      if placeable space nx p.y p.z c.RPICO = true then pymod nx 12 else p.x := by
  unfold commitX
  split <;> rfl

theorem commitX_y (c : Consts) (space : Space) (p : Pico) (nx : ℚ) :
    (commitX c space p nx).y = p.y := by
  unfold commitX
  split <;> rfl

theorem commitX_z (c : Consts) (space : Space) (p : Pico) (nx : ℚ) :
    (commitX c space p nx).z = p.z := by
  unfold commitX
  split <;> rfl

theorem commitY_x (c : Consts) (space : Space) (p : Pico) (ny : ℚ) :
    (commitY c space p ny).x = p.x := by
  unfold commitY
  split <;> rfl

theorem commitY_y (c : Consts) (space : Space) (p : Pico) (ny : ℚ) :
    (commitY c space p ny).y =
      if placeable space p.x ny p.z c.RPICO = true then pymod ny 12 else p.y := by
  unfold commitY
  split <;> rfl

theorem commitY_z (c : Consts) (space : Space) (p : Pico) (ny : ℚ) :
    (commitY c space p ny).z = p.z := by
  unfold commitY
  split <;> rfl

theorem commitZ_x (c : Consts) (space : Space) (p : Pico) (nz : ℚ) :
    (commitZ c space p nz).x = p.x := by
  unfold commitZ
  split <;> rfl

theorem commitZ_y (c : Consts) (space : Space) (p : Pico) (nz : ℚ) :
    (commitZ c space p nz).y = p.y := by
  unfold commitZ
  split <;> rfl

theorem commitZ_z (c : Consts) (space : Space) (p : Pico) (nz : ℚ) :
    (commitZ c space p nz).z =
      if placeable space p.x p.y nz c.RPICO = true then pymod nz 9 else p.z := by
  unfold commitZ
  split <;> rfl

/-- An x commit never leaves placeability: either the candidate was
tested placeable (and wrapping preserves placeability), or the position
is unchanged. -/
theorem commitX_safe (c : Consts) (space : Space) (p : Pico) (nx : ℚ)
    (h : placeable space p.x p.y p.z c.RPICO = true) :
    placeable space (commitX c space p nx).x (commitX c space p nx).y
      (commitX c space p nx).z c.RPICO = true := by
  unfold commitX
  by_cases hx : placeable space nx p.y p.z c.RPICO = true
  · simp only [hx, if_true]
    rw [placeable_pymod_x]
    exact hx
  · simp only [hx, if_false]
    exact h

theorem commitY_safe (c : Consts) (space : Space) (p : Pico) (ny : ℚ)
    (h : placeable space p.x p.y p.z c.RPICO = true) :
    placeable space (commitY c space p ny).x (commitY c space p ny).y
      (commitY c space p ny).z c.RPICO = true := by
  unfold commitY
  by_cases hy : placeable space p.x ny p.z c.RPICO = true
  · simp only [hy, if_true]
    rw [placeable_pymod_y]
    exact hy
  · simp only [hy, if_false]
    exact h

theorem commitZ_safe (c : Consts) (space : Space) (p : Pico) (nz : ℚ)
    (h : placeable space p.x p.y p.z c.RPICO = true) :
    placeable space (commitZ c space p nz).x (commitZ c space p nz).y
      (commitZ c space p nz).z c.RPICO = true := by
  unfold commitZ
  by_cases hz : placeable space p.x p.y nz c.RPICO = true
  · simp only [hz, if_true]
    rw [placeable_pymod_z]
    exact hz
  · simp only [hz, if_false]
    exact h

/-- Exact per-axis characterization of `picoMove`. -/
theorem picoMove_char (c : Consts) (space : Space) (p : Pico) (n : Vec3) :
    ((picoMove c space p n).x =
       if placeable space n.x p.y p.z c.RPICO = true then pymod n.x 12 else p.x) ∧
    ((picoMove c space p n).y =
       if placeable space (picoMove c space p n).x n.y p.z c.RPICO = true
       then pymod n.y 12 else p.y) ∧
    ((picoMove c space p n).z =
       if placeable space (picoMove c space p n).x (picoMove c space p n).y n.z
            c.RPICO = true
       then pymod n.z 9 else p.z) := by
  unfold picoMove
  refine ⟨?_, ?_, ?_⟩
  · rw [commitZ_x, commitY_x, commitX_x]
  · rw [commitZ_y, commitY_y, commitX_x, commitX_y, commitX_z, commitZ_x,
      commitY_x, commitX_x]
  · rw [commitZ_z, commitY_x, commitX_x, commitY_y, commitX_x, commitX_y,
      commitY_z, commitX_z, commitZ_x, commitY_x, commitX_x, commitZ_y,
      commitY_y, commitX_x, commitX_y, commitX_z]

/-- `picoMove` preserves placeability of the position. -/
theorem picoMove_safe (c : Consts) (space : Space) (p : Pico) (n : Vec3)
    (h : placeable space p.x p.y p.z c.RPICO = true) :
    placeable space (picoMove c space p n).x (picoMove c space p n).y
      (picoMove c space p n).z c.RPICO = true := by
  unfold picoMove
  exact commitZ_safe c space _ n.z (commitY_safe c space _ n.y
    (commitX_safe c space p n.x h))

/-- `picoUpdateAlive` is `picoMove` applied to the regenerated state and
the candidate position computed from the original state. -/
theorem picoUpdateAlive_eq (c : Consts) (lg : ℚ → ℚ) (space : Space) (p : Pico)
    (right upward forward : ℚ) :
    picoUpdateAlive c lg space p right upward forward =
      picoMove c space
        { p with health := min 1 (p.health + lg (p.health + 1) * (1 / p.fps)),
                 recoil_t := if p.recoil_t ≠ 0 then max (p.recoil_t - 1 / p.fps) 0
                             else p.recoil_t }
        (picoCand c p right upward forward) := rfl

/-- C1: `Pico.update`, when the character is not dead and its current
position is placeable at radius `RPICO`, commits each axis move exactly
when `placeable` holds at the candidate coordinate (the other two axes
held at their current, possibly just-committed, values), and the
resulting position is again placeable at radius `RPICO`. -/
theorem pico_update_axis_separable_safe
    (c : Consts) (lg : ℚ → ℚ) (space : Space) (cands : List Vec3) (newrot : Mat3)
    (p : Pico) (right upward forward : ℚ)
    (hnd : ¬ p.health < 0)
    (hp : placeable space p.x p.y p.z c.RPICO = true) :
    ∃ q, picoUpdate c lg space cands newrot p right upward forward = some q ∧
      (q.x = if placeable space (picoCand c p right upward forward).x p.y p.z
                  c.RPICO = true
             then pymod (picoCand c p right upward forward).x 12 else p.x) ∧
      (q.y = if placeable space q.x (picoCand c p right upward forward).y p.z
                  c.RPICO = true
             then pymod (picoCand c p right upward forward).y 12 else p.y) ∧
      (q.z = if placeable space q.x q.y (picoCand c p right upward forward).z
                  c.RPICO = true
             then pymod (picoCand c p right upward forward).z 9 else p.z) ∧
      placeable space q.x q.y q.z c.RPICO = true := by
  unfold picoUpdate
  rw [if_neg hnd]
  refine ⟨_, rfl, ?_, ?_, ?_, ?_⟩
  · rw [picoUpdateAlive_eq]
    exact (picoMove_char c space _ _).1
  · rw [picoUpdateAlive_eq]
    exact (picoMove_char c space _ _).2.1
  · rw [picoUpdateAlive_eq]
    exact (picoMove_char c space _ _).2.2
  · rw [picoUpdateAlive_eq]
    exact picoMove_safe c space _ _ hp

/-- Witness for C1 at a concrete input. -/
theorem pico_update_axis_separable_safe_witness :
    (¬ p0.health < 0) ∧ (placeable freeSpace p0.x p0.y p0.z c0.RPICO = true) ∧
    (∃ q, picoUpdate c0 (fun _ => 0) freeSpace [] idMat p0 1 0 0 = some q ∧
      (q.x = if placeable freeSpace (picoCand c0 p0 1 0 0).x p0.y p0.z
                  c0.RPICO = true
             then pymod (picoCand c0 p0 1 0 0).x 12 else p0.x) ∧
      (q.y = if placeable freeSpace q.x (picoCand c0 p0 1 0 0).y p0.z
                  c0.RPICO = true
             then pymod (picoCand c0 p0 1 0 0).y 12 else p0.y) ∧
      (q.z = if placeable freeSpace q.x q.y (picoCand c0 p0 1 0 0).z
                  c0.RPICO = true
             then pymod (picoCand c0 p0 1 0 0).z 9 else p0.z) ∧
      placeable freeSpace q.x q.y q.z c0.RPICO = true) :=
  ⟨by norm_num [p0], by norm_num [placeable, freeSpace, p0, c0],
   pico_update_axis_separable_safe c0 (fun _ => 0) freeSpace [] idMat p0 1 0 0
     (by norm_num [p0]) (by norm_num [placeable, freeSpace, p0, c0])⟩

/-- C2: `placeable` returns true iff none of the cells indexed by the
per-axis sample sets (each extremal coordinate individually wrapped and
truncated) is occupied. -/
theorem placeable_iff_sample_cells_free (space : Space) (x y z r : ℚ) :
    placeable space x y z r = true ↔ placeableSpec space x y z r := by
  unfold placeable placeableSpec
  simp [List.any_eq_true, Bool.not_eq_true]

/-- C6: a dead character's next `Pico.update` respawns it — health is
reset to exactly 1, the shard map is emptied, the recoil timer is
cleared, and the rejection-sampled position satisfies `placeable` at
radius `RPICO`. -/
theorem pico_update_respawn_resets
    (c : Consts) (lg : ℚ → ℚ) (space : Space) (cands : List Vec3) (newrot : Mat3)
    (p : Pico) (right upward forward : ℚ)
    (hd : p.health < 0)
    (hc : ∃ t ∈ cands, placeable space t.x t.y t.z c.RPICO = true) :
    ∃ q, picoUpdate c lg space cands newrot p right upward forward = some q ∧
      q.health = 1 ∧ q.shards = [] ∧ q.recoil_t = 0 ∧
      placeable space q.x q.y q.z c.RPICO = true := by
  unfold picoUpdate
  rw [if_pos hd]
  unfold picoInit
  obtain ⟨t, htmem, htpl⟩ := hc
  have hsome : (cands.find? fun t => placeable space t.x t.y t.z c.RPICO).isSome := by
    rw [List.find?_isSome]
    exact ⟨t, htmem, htpl⟩
  obtain ⟨t0, hfind⟩ := Option.isSome_iff_exists.mp hsome
  have hpl0 : placeable space t0.x t0.y t0.z c.RPICO = true := by
    simpa using List.find?_some hfind
  rw [hfind]
  exact ⟨_, rfl, rfl, rfl, rfl, hpl0⟩

/-- Witness for C6 at a concrete input. -/
theorem pico_update_respawn_resets_witness :
    (({ p0 with health := -1 } : Pico).health < 0) ∧
    (∃ t ∈ [(⟨2, 2, 2⟩ : Vec3)],
       placeable freeSpace t.x t.y t.z c0.RPICO = true) ∧
    (∃ q, picoUpdate c0 (fun _ => 0) freeSpace [⟨2, 2, 2⟩] idMat
            { p0 with health := -1 } 0 0 0 = some q ∧
      q.health = 1 ∧ q.shards = [] ∧ q.recoil_t = 0 ∧
      placeable freeSpace q.x q.y q.z c0.RPICO = true) :=
  ⟨by norm_num [p0], ⟨⟨2, 2, 2⟩, by norm_num, by norm_num [placeable, freeSpace, c0]⟩,
   pico_update_respawn_resets c0 (fun _ => 0) freeSpace [⟨2, 2, 2⟩] idMat
     { p0 with health := -1 } 0 0 0 (by norm_num [p0])
     ⟨⟨2, 2, 2⟩, by norm_num, by norm_num [placeable, freeSpace, c0]⟩⟩

/-- The all-zero row vector is absorbed by matrix multiplication. -/
theorem vecMulMat_zero (m : Mat3) : vecMulMat ⟨0, 0, 0⟩ m = ⟨0, 0, 0⟩ := by
  simp [vecMulMat]

/-- C10: `normalized` maps the zero vector to itself (no division by
zero); every other vector is divided by the sum of the squares of its
components; and `Pico.update` with an all-zero intent and no active
recoil leaves the (in-domain) position unchanged. -/
theorem normalized_zero_safe
    (c : Consts) (lg : ℚ → ℚ) (space : Space) (cands : List Vec3) (newrot : Mat3)
    (p : Pico)
    (ht : p.recoil_t = 0) (hh : ¬ p.health < 0)
    (hx0 : 0 ≤ p.x) (hx1 : p.x < 12) (hy0 : 0 ≤ p.y) (hy1 : p.y < 12)
    (hz0 : 0 ≤ p.z) (hz1 : p.z < 9) :
    normalized 0 0 0 = ⟨0, 0, 0⟩ ∧
    (∀ a b d : ℚ, (⟨a, b, d⟩ : Vec3) ≠ ⟨0, 0, 0⟩ →
       normalized a b d = (1 / (a * a + b * b + d * d)) • (⟨a, b, d⟩ : Vec3)) ∧
    ∃ q, picoUpdate c lg space cands newrot p 0 0 0 = some q ∧
      q.x = p.x ∧ q.y = p.y ∧ q.z = p.z := by
  refine ⟨by unfold normalized; simp,
    fun a b d h => by unfold normalized; rw [if_neg h], ?_⟩
  have hcand : picoCand c p 0 0 0 = ⟨p.x, p.y, p.z⟩ := by
    unfold picoCand picoDirection
    rw [if_neg (by simp [ht])]
    rw [show normalized 0 0 0 = ⟨0, 0, 0⟩ from by unfold normalized; simp]
    rw [vecMulMat_zero]
    simp [picoPos]
  have hrec : (if p.recoil_t ≠ 0 then max (p.recoil_t - 1 / p.fps) 0
               else p.recoil_t) = p.recoil_t := by
    simp [ht]
  have hchar := picoMove_char c space
      { p with health := min 1 (p.health + lg (p.health + 1) * (1 / p.fps)),
               recoil_t := p.recoil_t }
      ⟨p.x, p.y, p.z⟩
  refine ⟨picoUpdateAlive c lg space p 0 0 0, ?_, ?_, ?_, ?_⟩
  · unfold picoUpdate
    rw [if_neg hh]
  · rw [picoUpdateAlive_eq, hcand, hrec, hchar.1]
    split
    · exact pymod_eq_self (by norm_num) hx0 hx1
    · rfl
  · rw [picoUpdateAlive_eq, hcand, hrec, hchar.2.1]
    split
    · exact pymod_eq_self (by norm_num) hy0 hy1
    · rfl
  · rw [picoUpdateAlive_eq, hcand, hrec, hchar.2.2]
    split
    · exact pymod_eq_self (by norm_num) hz0 hz1
    · rfl

theorem shardHits_cons_fst (c : Consts) (s : Shard) (p : Pico) (rest : List Pico) :
    (shardHits c s (p :: rest)).1 =
      if hitTest c (shardPos s) p
      then (shardHits c { s with power := 0 } rest).1
      else (shardHits c s rest).1 := by
  simp only [shardHits]
  split <;> rfl

/-- The hit loop only ever zeroes the shard's power: its result is the
input shard, with power zeroed exactly when some pico is within the
collision radius. -/
theorem shardHits_fst (c : Consts) (s : Shard) (picos : List Pico) :
    (shardHits c s picos).1 =
      if picos.any (hitTest c (shardPos s)) then { s with power := 0 } else s := by
  induction picos generalizing s with
  | nil => simp [shardHits]
  | cons p rest ih =>
    rw [shardHits_cons_fst]
    by_cases h : hitTest c (shardPos s) p = true
    · rw [if_pos h, ih, show shardPos { s with power := 0 } = shardPos s from rfl,
        List.any_cons, h, Bool.true_or, if_pos rfl]
      split <;> rfl
    · have hb : hitTest c (shardPos s) p = false := by simpa using h
      rw [if_neg h, ih, List.any_cons, hb, Bool.false_or]

/-- The exact power evolution of one `Shard.update`: zeroed on any hit,
otherwise decremented by one exactly when some axis bounced. -/
theorem shardUpdate_power (c : Consts) (space : Space) (fps : ℚ)
    (picos : List Pico) (s : Shard) :
    (shardUpdate c space fps picos s).1.power =
      if shardHitAny c space fps picos s then 0
      else s.power - (if shardBounced c space fps s then 1 else 0) := by
  unfold shardUpdate shardHitAny
  rw [shardHits_fst]
  split
  · rfl
  · rfl

theorem shardUpdate_power_le (c : Consts) (space : Space) (fps : ℚ)
    (picos : List Pico) (s : Shard) (h : 0 ≤ s.power) :
    (shardUpdate c space fps picos s).1.power ≤ s.power := by
  rw [shardUpdate_power]
  split
  · exact h
  · split <;> omega

theorem shardUpdate_power_nonneg (c : Consts) (space : Space) (fps : ℚ)
    (picos : List Pico) (s : Shard) (h : 1 ≤ s.power) :
    0 ≤ (shardUpdate c space fps picos s).1.power := by
  rw [shardUpdate_power]
  split
  · omega
  · split <;> omega

theorem tickShards_cons_fst (c : Consts) (space : Space) (fps : ℚ)
    (hd : ℕ × Shard) (rest : List (ℕ × Shard)) (picos : List Pico) :
    (tickShards c space fps (hd :: rest) picos).1 =
      if (shardUpdate c space fps picos hd.2).1.power ≠ 0
      then (hd.1, (shardUpdate c space fps picos hd.2).1) ::
        (tickShards c space fps rest (shardUpdate c space fps picos hd.2).2).1
      else (tickShards c space fps rest (shardUpdate c space fps picos hd.2).2).1 := by
  simp only [tickShards]

/-- If every shard entering the `Peer.update` pass has positive power,
every shard kept by the pass still has positive power: a shard whose
power reaches zero this tick is pruned from the map. -/
theorem tickShards_min_power (c : Consts) (space : Space) (fps : ℚ)
    (shards : List (ℕ × Shard)) (picos : List Pico)
    (hall : ∀ e ∈ shards, 1 ≤ e.2.power) :
    ∀ e ∈ (tickShards c space fps shards picos).1, 1 ≤ e.2.power := by
  induction shards generalizing picos with
  | nil =>
    intro e he
    simp [tickShards] at he
  | cons hd rest ih =>
    intro e he
    have hhd : 1 ≤ hd.2.power := hall hd (List.mem_cons_self hd rest)
    have hrest : ∀ e ∈ rest, 1 ≤ e.2.power :=
      fun e he => hall e (List.mem_cons_of_mem hd he)
    rw [tickShards_cons_fst] at he
    by_cases hp : (shardUpdate c space fps picos hd.2).1.power ≠ 0
    · rw [if_pos hp] at he
      rcases List.mem_cons.mp he with he1 | he2
      · subst he1
        have hnn := shardUpdate_power_nonneg c space fps picos hd.2 hhd
        show 1 ≤ (shardUpdate c space fps picos hd.2).1.power
        omega
      · exact ih _ hrest e he2
    · rw [if_neg hp] at he
      exact ih _ hrest e he

/-- C3: across one simulation tick a projectile's power never
increases — it is zeroed on a character hit, decremented by exactly one
when any axis bounced (never more than one per tick), and unchanged
otherwise — and the per-tick pruning pass keeps only shards of nonzero
power, so a projectile whose power reaches zero is removed from its
owner's map within the tick. -/
theorem shard_power_monotone_exhausted_removed
    (c : Consts) (space : Space) (fps : ℚ) (picos : List Pico) (s : Shard)
    (shards : List (ℕ × Shard))
    (hs : 0 ≤ s.power) (hall : ∀ e ∈ shards, 1 ≤ e.2.power) :
    ((shardUpdate c space fps picos s).1.power =
       if shardHitAny c space fps picos s then 0
       else s.power - (if shardBounced c space fps s then 1 else 0)) ∧
    (shardUpdate c space fps picos s).1.power ≤ s.power ∧
    (∀ e ∈ (tickShards c space fps shards picos).1, 1 ≤ e.2.power) :=
  ⟨shardUpdate_power c space fps picos s,
   shardUpdate_power_le c space fps picos s hs,
   tickShards_min_power c space fps shards picos hall⟩

/-- Witness for C3 at a concrete input. -/
theorem shard_power_monotone_exhausted_removed_witness :
    (0 ≤ s0.power) ∧ (∀ e ∈ [(1, s0)], 1 ≤ e.2.power) ∧
    (((shardUpdate c0 wallZ8 1 [] s0).1.power =
       if shardHitAny c0 wallZ8 1 [] s0 then 0
       else s0.power - (if shardBounced c0 wallZ8 1 s0 then 1 else 0)) ∧
     (shardUpdate c0 wallZ8 1 [] s0).1.power ≤ s0.power ∧
     (∀ e ∈ (tickShards c0 wallZ8 1 [(1, s0)] []).1, 1 ≤ e.2.power)) :=
  ⟨by norm_num [s0], by norm_num [s0],
   shard_power_monotone_exhausted_removed c0 wallZ8 1 [] s0 [(1, s0)]
     (by norm_num [s0]) (by norm_num [s0])⟩

/-- C5 counterexample: a shard one tick below a wall, flying straight
up, bounces on the z axis; the source applies the displacement with the
already-reflected forward, so it lands at z = 6, not at the z = 8 its
pre-bounce forward (as the claim states the displacement) would give. -/
theorem shard_update_reflected_forward_cx :
    (shardUpdate c0 wallZ8 1 [] s0).1.z = 6 ∧
    pymod (shardCandP c0 1 s0).z 9 = 8 ∧ ((6 : ℚ) ≠ 8) := by
  refine ⟨?_, ?_, by norm_num⟩
  · norm_num [shardUpdate, shardHits, shardStep, shardRotAfter, bounceX,
      bounceY, bounceZ, shardBounced, c0, wallZ8, s0, shardCandP, shardPos,
      shardForward, idMat, placeable, twelve, nine, pymod, matMul, vecMulMat,
      INVX, INVY, INVZ]
  · norm_num [shardCandP, shardPos, shardForward, s0, c0, idMat, pymod]

/-- C5 (amended): with no character hit this tick, `Shard.update`
reflects the rotation about exactly the axes whose predicted coordinate
fails `placeable`, moves by the full displacement computed from the
POST-reflection forward, decrements power by exactly one iff any axis
bounced, and a single-axis reflection negates exactly that component of
the forward vector. -/
theorem shard_update_bounce_reflection
    (c : Consts) (space : Space) (fps : ℚ) (picos : List Pico) (s : Shard)
    (hnohit : shardHitAny c space fps picos s = false) :
    ((shardUpdate c space fps picos s).1.rot = shardRotAfter c space fps s) ∧
    ((shardUpdate c space fps picos s).1.x =
       pymod (shardPos s + (c.SHARD_SPEED / fps) •
         (shardRotAfter c space fps s).r2).x 12) ∧
    ((shardUpdate c space fps picos s).1.y =
       pymod (shardPos s + (c.SHARD_SPEED / fps) •
         (shardRotAfter c space fps s).r2).y 12) ∧
    ((shardUpdate c space fps picos s).1.z =
       pymod (shardPos s + (c.SHARD_SPEED / fps) •
         (shardRotAfter c space fps s).r2).z 9) ∧
    ((shardUpdate c space fps picos s).1.power =
       s.power - (if shardBounced c space fps s then 1 else 0)) ∧
    (shardBounced c space fps s = false →
       (shardUpdate c space fps picos s).1.rot = s.rot) ∧
    (bounceX c space fps s = true → bounceY c space fps s = false →
     bounceZ c space fps s = false →
       shardForward (shardUpdate c space fps picos s).1 =
         ⟨-(shardForward s).x, (shardForward s).y, (shardForward s).z⟩) := by
  have hfst : (shardUpdate c space fps picos s).1 = shardStep c space fps s := by
    unfold shardUpdate
    rw [shardHits_fst]
    rw [if_neg]
    unfold shardHitAny at hnohit
    simp [hnohit]
  refine ⟨by rw [hfst]; rfl, by rw [hfst]; rfl, by rw [hfst]; rfl,
    by rw [hfst]; rfl, by rw [hfst]; rfl, ?_, ?_⟩
  · intro hnb
    rw [hfst]
    have hbx : bounceX c space fps s = false := by
      unfold shardBounced at hnb
      simp only [Bool.or_eq_false_iff] at hnb
      exact hnb.1.1
    have hby : bounceY c space fps s = false := by
      unfold shardBounced at hnb
      simp only [Bool.or_eq_false_iff] at hnb
      exact hnb.1.2
    have hbz : bounceZ c space fps s = false := by
      unfold shardBounced at hnb
      simp only [Bool.or_eq_false_iff] at hnb
      exact hnb.2
    show shardRotAfter c space fps s = s.rot
    unfold shardRotAfter
    simp [hbx, hby, hbz]
  · intro hx hy hz
    rw [hfst]
    show (shardRotAfter c space fps s).r2 = _
    unfold shardRotAfter
    simp only [hx, hy, hz, if_true, Bool.false_eq_true, if_false]
    unfold shardForward matMul vecMulMat INVX
    simp only [Vec3.mk.injEq]
    refine ⟨by ring, by ring, by ring⟩

/-- Witness for the amended C5 at a concrete input. -/
theorem shard_update_bounce_reflection_witness :
    (shardHitAny c0 wallZ8 1 [] s0 = false) ∧
    (((shardUpdate c0 wallZ8 1 [] s0).1.rot = shardRotAfter c0 wallZ8 1 s0) ∧
     ((shardUpdate c0 wallZ8 1 [] s0).1.x =
        pymod (shardPos s0 + (c0.SHARD_SPEED / 1) •
          (shardRotAfter c0 wallZ8 1 s0).r2).x 12) ∧
     ((shardUpdate c0 wallZ8 1 [] s0).1.y =
        pymod (shardPos s0 + (c0.SHARD_SPEED / 1) •
          (shardRotAfter c0 wallZ8 1 s0).r2).y 12) ∧
     ((shardUpdate c0 wallZ8 1 [] s0).1.z =
        pymod (shardPos s0 + (c0.SHARD_SPEED / 1) •
          (shardRotAfter c0 wallZ8 1 s0).r2).z 9) ∧
     ((shardUpdate c0 wallZ8 1 [] s0).1.power =
        s0.power - (if shardBounced c0 wallZ8 1 s0 then 1 else 0)) ∧
     (shardBounced c0 wallZ8 1 s0 = false →
        (shardUpdate c0 wallZ8 1 [] s0).1.rot = s0.rot) ∧
     (bounceX c0 wallZ8 1 s0 = true → bounceY c0 wallZ8 1 s0 = false →
      bounceZ c0 wallZ8 1 s0 = false →
        shardForward (shardUpdate c0 wallZ8 1 [] s0).1 =
          ⟨-(shardForward s0).x, (shardForward s0).y, (shardForward s0).z⟩)) :=
  ⟨by norm_num [shardHitAny], shard_update_bounce_reflection c0 wallZ8 1 [] s0
    (by norm_num [shardHitAny])⟩

/-- Every key of the shard map is at most `maxKey`. -/
theorem mem_le_maxKey (sh : List (ℕ × Shard)) : ∀ e ∈ sh, e.1 ≤ maxKey sh := by
  induction sh with
  | nil =>
    intro e he
    simp at he
  | cons hd rest ih =>
    intro e he
    rw [show maxKey (hd :: rest) = max hd.1 (maxKey rest) from rfl]
    rcases List.mem_cons.mp he with h1 | h2
    · subst h1
      exact le_max_left e.1 (maxKey rest)
    · exact le_trans (ih e h2) (le_max_right hd.1 (maxKey rest))

/-- C9 (amended): `add_shard` assigns id `max key + 1` (so 1 on an
empty map), which is strictly greater than every id currently tracked —
ids are unique among live projectiles — but ids of removed projectiles
can be reassigned (see the counterexample). -/
theorem add_shard_id_fresh (c : Consts) (p : Pico) (pos : Vec3) (rot : Mat3) :
    ((addShard c p pos rot).shards =
       p.shards ++ [(maxKey p.shards + 1,
         mkShard p.addr (pos - c.RPICO • p.recoil_u) rot SHARD_LIFE)]) ∧
    (∀ e ∈ p.shards, e.1 < maxKey p.shards + 1) :=
  ⟨rfl, fun e he => Nat.lt_succ_of_le (mem_le_maxKey p.shards e he)⟩

/-- C9 counterexample: fire (id 1), let the projectile exhaust its
power over three fully-walled ticks (it is pruned), fire again — the
new projectile is assigned id 1 again: ids of removed projectiles are
reused. -/
theorem shard_id_reuse_cx :
    ((addShard c0 p0 (picoPos p0) idMat).shards.map Prod.fst = [1]) ∧
    (p0after.shards = []) ∧
    ((addShard c0 p0after (picoPos p0) idMat).shards.map Prod.fst = [1]) := by
  refine ⟨by norm_num [addShard, maxKey, p0], ?_, ?_⟩
  · norm_num [p0after, p0afterShards, tick0, tickShards, shardUpdate,
      shardHits, shardStep, shardRotAfter, bounceX, bounceY, bounceZ,
      shardBounced, shardCandP, shardPos, shardForward, addShard, mkShard,
      maxKey, placeable, twelve, nine, pymod, c0, p0, idMat, fullSpace,
      matMul, vecMulMat, INVX, INVY, INVZ, picoPos, SHARD_LIFE]
  · norm_num [p0after, p0afterShards, tick0, tickShards, shardUpdate,
      shardHits, shardStep, shardRotAfter, bounceX, bounceY, bounceZ,
      shardBounced, shardCandP, shardPos, shardForward, addShard, mkShard,
      maxKey, placeable, twelve, nine, pymod, c0, p0, idMat, fullSpace,
      matMul, vecMulMat, INVX, INVY, INVZ, picoPos, SHARD_LIFE]

/-- C7 counterexample: backward fire from position (1, 2, 3) with the
identity orientation spawns the shard at the wrap of the NEGATED
character position offset along forward — z = 35/6 — whereas the
claimed "character position offset by one radius along the recoil axis"
would put it at z = 17/6 (or 19/6 for the opposite sign). -/
theorem shoot_backward_spawn_position_cx :
    ((shoot c0 p0 true).shards = [(1, ⟨0, 3, 11, 10, 35/6, negMat idMat⟩)]) ∧
    (pymod (picoPos p0 - c0.RPICO • picoForward p0).z 9 = 17/6) ∧
    (pymod (picoPos p0 + c0.RPICO • picoForward p0).z 9 = 19/6) ∧
    ((35/6 : ℚ) ≠ 17/6) ∧ ((35/6 : ℚ) ≠ 19/6) := by
  refine ⟨?_, ?_, ?_, by norm_num, by norm_num⟩
  · norm_num [shoot, addShard, mkShard, maxKey, c0, p0, picoForward, picoPos,
      negMat, idMat, pymod, SHARD_LIFE]
  · norm_num [picoPos, picoForward, p0, c0, idMat, pymod]
  · norm_num [picoPos, picoForward, p0, c0, idMat, pymod]

/-- C7 (amended): `shoot` is a no-op when dead or while the recoil
timer is nonzero; otherwise it sets the recoil timer to `1 / RPS`, sets
the recoil direction to minus forward (or forward for backward fire),
and appends exactly one shard of full power `SHARD_LIFE` under the next
id, positioned at `pos - RPICO * recoil_u` for forward fire but at
`-pos - RPICO * recoil_u` (the negated position, wrapped) for backward
fire, with the orientation (or its negation for backward fire). -/
theorem shoot_effects (c : Consts) (p : Pico) (b : Bool)
    (ht : p.recoil_t = 0) (hh : ¬ p.health < 0) :
    ((shoot c p b).recoil_t = 1 / c.RPS) ∧
    ((shoot c p b).recoil_u = if b then picoForward p else -(picoForward p)) ∧
    ((shoot c p b).health = p.health) ∧ ((shoot c p b).x = p.x) ∧
    ((shoot c p b).y = p.y) ∧ ((shoot c p b).z = p.z) ∧
    ((shoot c p b).rot = p.rot) ∧
    ((shoot c p b).shards = p.shards ++
       [(maxKey p.shards + 1,
         mkShard p.addr
           ((if b then -(picoPos p) else picoPos p) -
              c.RPICO • (if b then picoForward p else -(picoForward p)))
           (if b then negMat p.rot else p.rot) SHARD_LIFE)]) ∧
    (∀ p2 : Pico, ∀ b2 : Bool, p2.recoil_t ≠ 0 ∨ p2.health < 0 →
       shoot c p2 b2 = p2) := by
  have hcond : ¬(p.recoil_t ≠ 0 ∨ p.health < 0) := by
    push_neg
    exact ⟨ht, le_of_not_lt hh⟩
  have hnoop : ∀ p2 : Pico, ∀ b2 : Bool, p2.recoil_t ≠ 0 ∨ p2.health < 0 →
      shoot c p2 b2 = p2 := by
    intro p2 b2 h2
    unfold shoot
    rw [if_pos h2]
  cases b with
  | false =>
    have hs : shoot c p false =
        addShard c { p with recoil_t := 1 / c.RPS,
                            recoil_u := -(picoForward p) }
          (picoPos p) p.rot := by
      unfold shoot
      rw [if_neg hcond]
      rfl
    rw [hs]
    exact ⟨rfl, rfl, rfl, rfl, rfl, rfl, rfl, rfl, hnoop⟩
  | true =>
    have hs : shoot c p true =
        addShard c { p with recoil_t := 1 / c.RPS,
                            recoil_u := picoForward p }
          (-(picoPos p)) (negMat p.rot) := by
      unfold shoot
      rw [if_neg hcond]
      rfl
    rw [hs]
    exact ⟨rfl, rfl, rfl, rfl, rfl, rfl, rfl, rfl, hnoop⟩

/-- Witness for the amended C7 at a concrete input. -/
theorem shoot_effects_witness :
    (p0.recoil_t = 0) ∧ (¬ p0.health < 0) ∧
    (((shoot c0 p0 false).recoil_t = 1 / c0.RPS) ∧
     ((shoot c0 p0 false).recoil_u =
        if false then picoForward p0 else -(picoForward p0)) ∧
     ((shoot c0 p0 false).health = p0.health) ∧ ((shoot c0 p0 false).x = p0.x) ∧
     ((shoot c0 p0 false).y = p0.y) ∧ ((shoot c0 p0 false).z = p0.z) ∧
     ((shoot c0 p0 false).rot = p0.rot) ∧
     ((shoot c0 p0 false).shards = p0.shards ++
        [(maxKey p0.shards + 1,
          mkShard p0.addr
            ((if false then -(picoPos p0) else picoPos p0) -
               c0.RPICO • (if false then picoForward p0 else -(picoForward p0)))
            (if false then negMat p0.rot else p0.rot) SHARD_LIFE)]) ∧
     (∀ p2 : Pico, ∀ b2 : Bool, p2.recoil_t ≠ 0 ∨ p2.health < 0 →
        shoot c0 p2 b2 = p2)) :=
  ⟨by norm_num [p0], by norm_num [p0],
   shoot_effects c0 p0 false (by norm_num [p0]) (by norm_num [p0])⟩

/-- Witness for C10 at a concrete input. -/
theorem normalized_zero_safe_witness :
    p0.recoil_t = 0 ∧ (¬ p0.health < 0) ∧ (0 ≤ p0.x) ∧ (p0.x < 12) ∧
    ((normalized 0 0 0 = ⟨0, 0, 0⟩) ∧
     (∀ a b d : ℚ, (⟨a, b, d⟩ : Vec3) ≠ ⟨0, 0, 0⟩ →
        normalized a b d = (1 / (a * a + b * b + d * d)) • (⟨a, b, d⟩ : Vec3)) ∧
     ∃ q, picoUpdate c0 (fun _ => 0) freeSpace [] idMat p0 0 0 0 = some q ∧
       q.x = p0.x ∧ q.y = p0.y ∧ q.z = p0.z) :=
  ⟨by norm_num [p0], by norm_num [p0], by norm_num [p0], by norm_num [p0],
   normalized_zero_safe c0 (fun _ => 0) freeSpace [] idMat p0
     (by norm_num [p0]) (by norm_num [p0]) (by norm_num [p0]) (by norm_num [p0])
     (by norm_num [p0]) (by norm_num [p0]) (by norm_num [p0]) (by norm_num [p0])⟩

/-! Lookup lemmas for the shard-map synchronization. -/

theorem alookup_cons {α : Type} (e : ℕ × α) (rest : List (ℕ × α)) (j : ℕ) :
    alookup (e :: rest) j = if e.1 = j then some e.2 else alookup rest j := by
  simp only [alookup]

theorem alookup_cons_mk {α : Type} (k : ℕ) (v : α) (rest : List (ℕ × α)) (j : ℕ) :
    alookup ((k, v) :: rest) j = if k = j then some v else alookup rest j := by
  simp only [alookup]

/-- Updating the value at key `i` in place does not change lookups at
other keys. -/
theorem alookup_map_update_ne {α : Type} (sh : List (ℕ × α)) (i j : ℕ)
    (f : α → α) (hij : j ≠ i) :
    alookup (sh.map fun e => if e.1 = i then (e.1, f e.2) else e) j =
      alookup sh j := by
  induction sh with
  | nil => rfl
  | cons hd rest ih =>
    rw [List.map_cons]
    by_cases h : hd.1 = i
    · rw [if_pos h, alookup_cons_mk, alookup_cons]
      have hne : ¬ hd.1 = j := fun hh => hij (h.symm.trans hh).symm
      rw [if_neg hne, if_neg hne, ih]
    · rw [if_neg h, alookup_cons, alookup_cons]
      by_cases hj : hd.1 = j
      · rw [if_pos hj, if_pos hj]
      · rw [if_neg hj, if_neg hj, ih]

/-- Updating the value at a present key `i` in place is visible at `i`. -/
theorem alookup_map_update_self {α : Type} (sh : List (ℕ × α)) (i : ℕ)
    (f : α → α) (s : α) (hs : alookup sh i = some s) :
    alookup (sh.map fun e => if e.1 = i then (e.1, f e.2) else e) i =
      some (f s) := by
  induction sh with
  | nil => cases hs
  | cons hd rest ih =>
    rw [List.map_cons]
    by_cases h : hd.1 = i
    · rw [if_pos h, alookup_cons_mk, if_pos h]
      rw [alookup_cons, if_pos h] at hs
      injection hs with hs
      rw [hs]
    · rw [if_neg h, alookup_cons, if_neg h]
      rw [alookup_cons, if_neg h] at hs
      exact ih hs

/-- Appending an entry under a fresh key is visible at that key. -/
theorem alookup_append_single_self {α : Type} (sh : List (ℕ × α)) (i : ℕ)
    (w : α) (hnone : alookup sh i = none) :
    alookup (sh ++ [(i, w)]) i = some w := by
  induction sh with
  | nil =>
    rw [List.nil_append, alookup_cons_mk, if_pos rfl]
  | cons hd rest ih =>
    rw [alookup_cons] at hnone
    by_cases h : hd.1 = i
    · rw [if_pos h] at hnone
      cases hnone
    · rw [if_neg h] at hnone
      rw [List.cons_append, alookup_cons, if_neg h]
      exact ih hnone

/-- Appending an entry under key `i` does not change lookups at other
keys. -/
theorem alookup_append_single_ne {α : Type} (sh : List (ℕ × α)) (i j : ℕ)
    (w : α) (hij : j ≠ i) :
    alookup (sh ++ [(i, w)]) j = alookup sh j := by
  induction sh with
  | nil =>
    rw [List.nil_append, alookup_cons_mk, if_neg (fun h => hij h.symm)]
  | cons hd rest ih =>
    rw [List.cons_append, alookup_cons, alookup_cons]
    by_cases h : hd.1 = j
    · rw [if_pos h, if_pos h]
    · rw [if_neg h, if_neg h, ih]

/-- One `Pico.sync` snapshot entry leaves every other id untouched. -/
theorem syncOneShard_lookup_ne (a : ℕ) (sh : List (ℕ × Shard)) (i j : ℕ)
    (t : Vec3 × Mat3 × ℤ) (hij : j ≠ i) :
    alookup (syncOneShard a sh i t) j = alookup sh j := by
  unfold syncOneShard
  split
  · exact alookup_map_update_ne sh i j (fun s => shardSync s t.1 t.2.1 t.2.2) hij
  · exact alookup_append_single_ne sh i j _ hij

/-- One `Pico.sync` snapshot entry updates the tracked shard in place,
or creates a new one when the id is untracked. -/
theorem syncOneShard_lookup_self (a : ℕ) (sh : List (ℕ × Shard)) (i : ℕ)
    (t : Vec3 × Mat3 × ℤ) :
    alookup (syncOneShard a sh i t) i =
      some (match alookup sh i with
            | some s => shardSync s t.1 t.2.1 t.2.2
            | none => mkShard a t.1 t.2.1 t.2.2) := by
  unfold syncOneShard
  cases hs : alookup sh i with
  | some s =>
    simp only [hs, Option.isSome_some, if_true]
    exact alookup_map_update_self sh i (fun s => shardSync s t.1 t.2.1 t.2.2) s hs
  | none =>
    simp only [hs, Option.isSome_none, Bool.false_eq_true, if_false]
    exact alookup_append_single_self sh i _ hs

/-- The `Pico.sync` fold over snapshot entries none of which carry id
`i` leaves id `i` untouched. -/
theorem foldl_sync_lookup_not_mem (a i : ℕ) :
    ∀ (snap : List (ℕ × Vec3 × Mat3 × ℤ)) (sh : List (ℕ × Shard)),
      (∀ e ∈ snap, e.1 ≠ i) →
      alookup (snap.foldl (fun sh e => syncOneShard a sh e.1 e.2) sh) i =
        alookup sh i := by
  intro snap
  induction snap with
  | nil =>
    intro sh _
    rfl
  | cons hd rest ih =>
    intro sh hnot
    rw [List.foldl_cons,
      ih _ (fun e he => hnot e (List.mem_cons_of_mem hd he)),
      syncOneShard_lookup_ne a sh hd.1 i hd.2
        (fun hh => hnot hd (List.mem_cons_self hd rest) hh.symm)]

/-- The `Pico.sync` fold applied to a snapshot with no duplicate ids
realizes, at each snapshot id, the update-or-create semantics relative
to the original map. -/
theorem foldl_sync_lookup_mem (a i : ℕ) (t : Vec3 × Mat3 × ℤ) :
    ∀ (snap : List (ℕ × Vec3 × Mat3 × ℤ)) (sh : List (ℕ × Shard)),
      (i, t) ∈ snap → (snap.map Prod.fst).Nodup →
      alookup (snap.foldl (fun sh e => syncOneShard a sh e.1 e.2) sh) i =
        some (match alookup sh i with
              | some s => shardSync s t.1 t.2.1 t.2.2
              | none => mkShard a t.1 t.2.1 t.2.2) := by
  intro snap
  induction snap with
  | nil =>
    intro sh hmem
    cases hmem
  | cons hd rest ih =>
    intro sh hmem hnd
    rw [List.map_cons, List.nodup_cons] at hnd
    rw [List.foldl_cons]
    rcases List.mem_cons.mp hmem with h1 | h2
    · have hhd1 : hd.1 = i := by rw [← h1]
      have hhd2 : hd.2 = t := by rw [← h1]
      have hrest : ∀ e ∈ rest, e.1 ≠ i := by
        intro e he hei
        exact hnd.1 (hhd1 ▸ hei ▸ List.mem_map_of_mem Prod.fst he)
      rw [foldl_sync_lookup_not_mem a i rest _ hrest, hhd1, hhd2,
        syncOneShard_lookup_self]
    · have hne : i ≠ hd.1 := by
        intro hei
        exact hnd.1 (hei ▸ List.mem_map_of_mem Prod.fst h2)
      rw [ih _ h2 hnd.2, syncOneShard_lookup_ne a sh hd.1 i hd.2 hne]

/-- C4: `Pico.sync` overwrites health, position and rotation, updates
in place or creates exactly the projectiles whose ids appear in the
snapshot, and leaves every tracked projectile whose id is absent from
the snapshot present and unchanged — it never deletes projectiles. -/
theorem pico_sync_updates_without_deleting (p : Pico) (h : ℚ) (v : Vec3)
    (m : Mat3) (snap : List (ℕ × Vec3 × Mat3 × ℤ))
    (hnd : (snap.map Prod.fst).Nodup) :
    ((picoSync p h v m snap).health = h) ∧
    ((picoSync p h v m snap).x = v.x) ∧ ((picoSync p h v m snap).y = v.y) ∧
    ((picoSync p h v m snap).z = v.z) ∧ ((picoSync p h v m snap).rot = m) ∧
    (∀ i, (∀ e ∈ snap, e.1 ≠ i) →
       alookup (picoSync p h v m snap).shards i = alookup p.shards i) ∧
    (∀ e ∈ snap,
       alookup (picoSync p h v m snap).shards e.1 =
         some (match alookup p.shards e.1 with
               | some s => shardSync s e.2.1 e.2.2.1 e.2.2.2
               | none => mkShard p.addr e.2.1 e.2.2.1 e.2.2.2)) := by
  refine ⟨rfl, rfl, rfl, rfl, rfl, ?_, ?_⟩
  · intro i hi
    exact foldl_sync_lookup_not_mem p.addr i snap p.shards hi
  · intro e he
    have hmem : (e.1, e.2) ∈ snap := by
      rw [Prod.mk.eta]
      exact he
    exact foldl_sync_lookup_mem p.addr e.1 e.2 snap p.shards hmem hnd

/-- Witness for C4 at a concrete input. -/
theorem pico_sync_updates_without_deleting_witness :
    (([(2, (⟨4, 4, 4⟩, idMat, 2))] :
        List (ℕ × Vec3 × Mat3 × ℤ)).map Prod.fst).Nodup ∧
    (((picoSync { p0 with shards := [(1, s0)] } (1/2) ⟨4, 5, 6⟩ idMat
         [(2, (⟨4, 4, 4⟩, idMat, 2))]).health = 1/2) ∧
     ((picoSync { p0 with shards := [(1, s0)] } (1/2) ⟨4, 5, 6⟩ idMat
         [(2, (⟨4, 4, 4⟩, idMat, 2))]).x = (⟨4, 5, 6⟩ : Vec3).x) ∧
     ((picoSync { p0 with shards := [(1, s0)] } (1/2) ⟨4, 5, 6⟩ idMat
         [(2, (⟨4, 4, 4⟩, idMat, 2))]).y = (⟨4, 5, 6⟩ : Vec3).y) ∧
     ((picoSync { p0 with shards := [(1, s0)] } (1/2) ⟨4, 5, 6⟩ idMat
         [(2, (⟨4, 4, 4⟩, idMat, 2))]).z = (⟨4, 5, 6⟩ : Vec3).z) ∧
     ((picoSync { p0 with shards := [(1, s0)] } (1/2) ⟨4, 5, 6⟩ idMat
         [(2, (⟨4, 4, 4⟩, idMat, 2))]).rot = idMat) ∧
     (∀ i, (∀ e ∈ ([(2, (⟨4, 4, 4⟩, idMat, 2))] :
               List (ℕ × Vec3 × Mat3 × ℤ)), e.1 ≠ i) →
        alookup (picoSync { p0 with shards := [(1, s0)] } (1/2) ⟨4, 5, 6⟩ idMat
            [(2, (⟨4, 4, 4⟩, idMat, 2))]).shards i =
          alookup ({ p0 with shards := [(1, s0)] } : Pico).shards i) ∧
     (∀ e ∈ ([(2, (⟨4, 4, 4⟩, idMat, 2))] : List (ℕ × Vec3 × Mat3 × ℤ)),
        alookup (picoSync { p0 with shards := [(1, s0)] } (1/2) ⟨4, 5, 6⟩ idMat
            [(2, (⟨4, 4, 4⟩, idMat, 2))]).shards e.1 =
          some (match alookup ({ p0 with shards := [(1, s0)] } : Pico).shards e.1 with
                | some s => shardSync s e.2.1 e.2.2.1 e.2.2.2
                | none => mkShard ({ p0 with shards := [(1, s0)] } : Pico).addr
                    e.2.1 e.2.2.1 e.2.2.2))) :=
  ⟨by simp,
   pico_sync_updates_without_deleting { p0 with shards := [(1, s0)] } (1/2)
     ⟨4, 5, 6⟩ idMat [(2, (⟨4, 4, 4⟩, idMat, 2))] (by simp)⟩

/-- C8 (code behaviour at the failing input): a datagram from an
unknown address whose payload fails to decode makes `Peer.sync` first
append the address to the peer list and create a character for it, and
then raise — the decode error propagates out of the receive-processing
path instead of the datagram being dropped silently with no state
change. -/
theorem peer_sync_malformed_crashes (newPico : ℕ → Pico) (p : Pico) :
    peerSync newPico { peers := [], picos := [(0, p)] } [(7, none)] =
      Except.error { peers := [7], picos := [(0, p), (7, newPico 7)] } := by
  simp [peerSync, peerSyncOne, alookup]

end Axuy
